import Mathlib

/-!
Shallow embedding of the ChitFund ink! contract (src/lib.rs) and proofs
about its five operations (join, deposit, end_cycle, draw, begin_cycle)
and the winner-selection helper get_random_account.

Modelling conventions:
* `AccountId` and `Balance` are modelled as `Nat`; `Vec<AccountId>` as
  `List AccountId` (push = append at the end, as in the source).
* Each contract message becomes a pure function from the storage struct
  plus its environment inputs (caller, attached value, block number) to a
  result and the updated storage.  `draw` additionally returns the value
  transfer it performs (`some (recipient, amount)` on success).
* Guards are translated in source order; an early `return Err(..)` becomes
  the error branch of the corresponding `if`.
-/

namespace ChitFundSpec

abbrev AccountId := Nat

abbrev Balance := Nat

/-- Storage struct of the contract (src/lib.rs lines 10-20). -/
structure ChitFund where
  admin : AccountId
  max_participants : Nat
  monthly_contribution : Balance
  current_round : Nat
  pot : Balance
  total_amount : Balance
  participants : List AccountId
  used_indexes : List AccountId
  finished : Bool
deriving Repr, DecidableEq

/-- Error enum of the contract (src/lib.rs lines 24-36). -/
inductive Error where
  | ParticipantsAlreadyFull
  | ChitFundHasFinished
  | AlreadyJoined
  | CannotJoinMidCycle
  | OnlyOwnerCanBeginCycle
  | OnlyOwnerCanEndCycle
  | ChitFundNotFinished
  | NotParticipant
  | OnlyAdminCanDraw
  | ChitFundAlreadyFinished
  | FailedToGetWinner
deriving Repr, DecidableEq

instance {ε α : Type} [DecidableEq ε] [DecidableEq α] :
    DecidableEq (Except ε α) := fun
  | .ok a, .ok b =>
      if h : a = b then .isTrue (by rw [h]) else .isFalse (by simp [h])
  | .ok _, .error _ => .isFalse (by simp)
  | .error _, .ok _ => .isFalse (by simp)
  | .error e, .error f =>
      if h : e = f then .isTrue (by rw [h]) else .isFalse (by simp [h])

/-- Constructor `new` (src/lib.rs lines 75-89). -/
def ChitFund.new (admin : AccountId) (max_participants : Nat)
    (monthly_contribution : Balance) : ChitFund :=
  { admin := admin
    max_participants := max_participants
    monthly_contribution := monthly_contribution
    current_round := 1
    pot := 0
    total_amount := 0
    participants := []
    used_indexes := []
    finished := false }

/-- Message `join` (src/lib.rs lines 93-111): caller joins the fund. -/
def join (s : ChitFund) (caller : AccountId) : Except Error Unit × ChitFund :=
  if s.max_participants ≤ s.participants.length then
    (.error .ParticipantsAlreadyFull, s)
  else if s.finished then
    (.error .ChitFundHasFinished, s)
  else if caller ∈ s.participants then
    (.error .AlreadyJoined, s)
  else
    (.ok (), { s with participants := s.participants ++ [caller] })

/-- Message `begin_cycle` (src/lib.rs lines 114-129). -/
def begin_cycle (s : ChitFund) (caller : AccountId) :
    Except Error Unit × ChitFund :=
  if caller ≠ s.admin then
    (.error .OnlyOwnerCanBeginCycle, s)
  else if s.finished = false then
    (.error .ChitFundNotFinished, s)
  else
    (.ok (), { s with total_amount := s.pot, pot := 0, finished := false })

/-- Message `deposit` (src/lib.rs lines 134-150); `value` is the attached
transferred value. -/
def deposit (s : ChitFund) (caller : AccountId) (value : Balance) :
    Except Error Unit × ChitFund :=
  if caller ∉ s.participants then
    (.error .NotParticipant, s)
  else if s.finished then
    (.error .ChitFundHasFinished, s)
  else
    (.ok (), { s with pot := s.pot + value })

/-- Helper `get_random_account` (src/lib.rs lines 180-194).  Returns the
selected winner (if any) together with the updated `used_indexes` list
(the Rust version mutates it through `&mut`; `participants` is never
mutated). -/
def get_random_account (participants used_indexes : List AccountId)
    (block_number : Nat) : Option AccountId × List AccountId :=
  if participants = [] then
    (none, used_indexes)
  else
    let idx := block_number % participants.length
    let account_id := participants.getD idx 0
    if account_id ∈ used_indexes then
      (none, used_indexes)
    else
      (some account_id, used_indexes ++ [account_id])

/-- The exhaustion-reset step at the top of `draw`
(src/lib.rs lines 154-156): clear `used_indexes` when its length equals
the participant count.  In the source this runs before any guard check. -/
def resetUsed (s : ChitFund) : ChitFund :=
  if s.used_indexes.length = s.participants.length then
    { s with used_indexes := [] }
  else
    s

/-- Message `draw` (src/lib.rs lines 153-177).  The reset of
`used_indexes` happens first, before any guard, so `resetUsed s` plays
the role of the (already mutated) `self` in the rest of the body.  The
third component is the value transfer performed by
`Self::env().transfer(winner, amount)`: `some (winner, amount)` on
success, `none` otherwise. -/
def draw (s : ChitFund) (caller : AccountId) (block_number : Nat) :
    Except Error Unit × ChitFund × Option (AccountId × Balance) :=
  if caller ≠ (resetUsed s).admin then
    (.error .OnlyAdminCanDraw, resetUsed s, none)
  else if (resetUsed s).finished = false then
    (.error .ChitFundNotFinished, resetUsed s, none)
  else
    match get_random_account (resetUsed s).participants
        (resetUsed s).used_indexes block_number with
    | (some winner, used') =>
        (.ok (), { resetUsed s with used_indexes := used' },
          some (winner, (resetUsed s).total_amount - (resetUsed s).pot))
    | (none, used') =>
        (.error .FailedToGetWinner,
          { resetUsed s with used_indexes := used' }, none)

/-- One caller invocation of any of the five messages, with its
environment inputs. -/
inductive Op where
  | join (caller : AccountId)
  | deposit (caller : AccountId) (value : Balance)
  | end_cycle (caller : AccountId)
  | draw (caller : AccountId) (block_number : Nat)
  | begin_cycle (caller : AccountId)

/-- Message `end_cycle` (src/lib.rs lines 198-214). -/
def end_cycle (s : ChitFund) (caller : AccountId) :
    Except Error Unit × ChitFund :=
  if caller ≠ s.admin then
    (.error .OnlyOwnerCanEndCycle, s)
  else if s.finished then
    (.error .ChitFundAlreadyFinished, s)
  else
    (.ok (), { s with total_amount := s.pot, pot := 0,
                      current_round := s.current_round + 1,
                      finished := true })

/-- The storage resulting from one invocation (the result value is
dropped). -/
def apply (s : ChitFund) : Op → ChitFund
  | .join c => (join s c).2
  | .deposit c v => (deposit s c v).2
  | .end_cycle c => (end_cycle s c).2
  | .draw c bn => (draw s c bn).2.1
  | .begin_cycle c => (begin_cycle s c).2

/-- States reachable from the constructor by any sequence of the five
operations. -/
inductive Reachable : ChitFund → Prop where
  | init (a m mc : Nat) : Reachable (ChitFund.new a m mc)
  | step (s : ChitFund) (op : Op) : Reachable s → Reachable (apply s op)

/-- Invariant of claim C9: `used_indexes` only holds enrolled
participants and has no duplicates. -/
def usedSubsetInv (s : ChitFund) : Prop :=
  (∀ x ∈ s.used_indexes, x ∈ s.participants) ∧ s.used_indexes.Nodup

instance (s : ChitFund) : Decidable (usedSubsetInv s) := by
  unfold usedSubsetInv
  infer_instance

/-- Invariant of claim C10: a finished fund has an empty pot. -/
def finishedPotInv (s : ChitFund) : Prop :=
  s.finished = true → s.pot = 0

/-- Running a sequence of `join` calls, one per caller in the list. -/
def runJoins (s : ChitFund) : List AccountId → ChitFund
  | [] => s
  | c :: cs => runJoins (join s c).2 cs

/-! ### Concrete states used by counterexamples and witnesses -/

/-- A one-slot fund whose single participant has already won: the
exhaustion reset fires on the next `draw`, whoever calls it. -/
def drawFailState : ChitFund :=
  { admin := 0, max_participants := 1, monthly_contribution := 100,
    current_round := 1, pot := 0, total_amount := 0,
    participants := [1], used_indexes := [1], finished := false }

/-- The same fund in the draw phase with a 300-unit payout pending. -/
def drawPhaseState : ChitFund :=
  { admin := 0, max_participants := 1, monthly_contribution := 100,
    current_round := 2, pot := 0, total_amount := 300,
    participants := [1], used_indexes := [1], finished := true }

/-- A two-participant fund mid-collection with 200 units in the pot. -/
def collectingState : ChitFund :=
  { admin := 0, max_participants := 3, monthly_contribution := 100,
    current_round := 1, pot := 200, total_amount := 0,
    participants := [1, 2], used_indexes := [], finished := false }

/-- A one-participant fund mid-collection with 50 units in the pot. -/
def smallPotState : ChitFund :=
  { admin := 0, max_participants := 3, monthly_contribution := 100,
    current_round := 1, pot := 50, total_amount := 0,
    participants := [1], used_indexes := [], finished := false }

/-! ### Helper lemmas about `get_random_account` -/

theorem get_random_account_none {ps used : List AccountId} {bn : Nat}
    {u' : List AccountId} (h : get_random_account ps used bn = (none, u')) :
    u' = used := by
  unfold get_random_account at h
  split at h
  · exact (Prod.mk.injEq .. ▸ h).2.symm
  · simp only at h
    split at h
    · exact (Prod.mk.injEq .. ▸ h).2.symm
    · exact absurd (Prod.mk.injEq .. ▸ h).1 (by simp)

theorem get_random_account_some {ps used : List AccountId} {bn : Nat}
    {w : AccountId} {u' : List AccountId}
    (h : get_random_account ps used bn = (some w, u')) :
    w ∈ ps ∧ w ∉ used ∧ u' = used ++ [w] := by
  unfold get_random_account at h
  split at h
  · exact absurd (Prod.mk.injEq .. ▸ h).1 (by simp)
  · rename_i hne
    simp only at h
    split at h
    · exact absurd (Prod.mk.injEq .. ▸ h).1 (by simp)
    · rename_i hmem
      obtain ⟨h1, h2⟩ := Prod.mk.injEq .. ▸ h
      obtain rfl : ps.getD (bn % ps.length) 0 = w := Option.some.inj h1
      have hlt : bn % ps.length < ps.length :=
        Nat.mod_lt _ (List.length_pos.mpr hne)
      refine ⟨?_, hmem, h2.symm⟩
      rw [List.getD_eq_getElem ps 0 hlt]
      exact List.getElem_mem hlt

/-! ### Field lemmas for the exhaustion reset -/

theorem resetUsed_admin (s : ChitFund) : (resetUsed s).admin = s.admin := by
  unfold resetUsed; split <;> rfl

theorem resetUsed_participants (s : ChitFund) :
    (resetUsed s).participants = s.participants := by
  unfold resetUsed; split <;> rfl

theorem resetUsed_finished (s : ChitFund) :
    (resetUsed s).finished = s.finished := by
  unfold resetUsed; split <;> rfl

theorem resetUsed_pot (s : ChitFund) : (resetUsed s).pot = s.pot := by
  unfold resetUsed; split <;> rfl

theorem resetUsed_total_amount (s : ChitFund) :
    (resetUsed s).total_amount = s.total_amount := by
  unfold resetUsed; split <;> rfl

theorem resetUsed_of_ne (s : ChitFund)
    (h : s.used_indexes.length ≠ s.participants.length) : resetUsed s = s := by
  unfold resetUsed; rw [if_neg h]

theorem resetUsed_of_eq (s : ChitFund)
    (h : s.used_indexes.length = s.participants.length) :
    resetUsed s = { s with used_indexes := [] } := by
  unfold resetUsed; rw [if_pos h]

/-! ### Case analyses of the five operations -/

theorem join_eq (s : ChitFund) (c : AccountId) :
    join s c = (.error .ParticipantsAlreadyFull, s) ∨
    join s c = (.error .ChitFundHasFinished, s) ∨
    join s c = (.error .AlreadyJoined, s) ∨
    (c ∉ s.participants ∧ s.participants.length < s.max_participants ∧
      s.finished = false ∧
      join s c = (.ok (), { s with participants := s.participants ++ [c] })) := by
  unfold join
  split
  · exact .inl rfl
  · rename_i h1
    split
    · exact .inr (.inl rfl)
    · rename_i h2
      split
      · exact .inr (.inr (.inl rfl))
      · rename_i h3
        exact .inr (.inr (.inr ⟨h3, by omega, by simpa using h2, rfl⟩))

theorem deposit_eq (s : ChitFund) (c : AccountId) (v : Balance) :
    deposit s c v = (.error .NotParticipant, s) ∨
    deposit s c v = (.error .ChitFundHasFinished, s) ∨
    (c ∈ s.participants ∧ s.finished = false ∧
      deposit s c v = (.ok (), { s with pot := s.pot + v })) := by
  unfold deposit
  split
  · exact .inl rfl
  · rename_i h1
    split
    · exact .inr (.inl rfl)
    · rename_i h2
      exact .inr (.inr ⟨not_not.mp h1, by simpa using h2, rfl⟩)

theorem end_cycle_eq (s : ChitFund) (c : AccountId) :
    end_cycle s c = (.error .OnlyOwnerCanEndCycle, s) ∨
    end_cycle s c = (.error .ChitFundAlreadyFinished, s) ∨
    (c = s.admin ∧ s.finished = false ∧
      end_cycle s c = (.ok (), { s with total_amount := s.pot, pot := 0,
                                        current_round := s.current_round + 1,
                                        finished := true })) := by
  unfold end_cycle
  split
  · exact .inl rfl
  · rename_i h1
    split
    · exact .inr (.inl rfl)
    · rename_i h2
      exact .inr (.inr ⟨not_not.mp h1, by simpa using h2, rfl⟩)

theorem begin_cycle_eq (s : ChitFund) (c : AccountId) :
    begin_cycle s c = (.error .OnlyOwnerCanBeginCycle, s) ∨
    begin_cycle s c = (.error .ChitFundNotFinished, s) ∨
    (c = s.admin ∧ s.finished = true ∧
      begin_cycle s c = (.ok (), { s with total_amount := s.pot, pot := 0,
                                          finished := false })) := by
  unfold begin_cycle
  split
  · exact .inl rfl
  · rename_i h1
    split
    · exact .inr (.inl rfl)
    · rename_i h2
      exact .inr (.inr ⟨not_not.mp h1, by simpa using h2, rfl⟩)

theorem draw_eq (s : ChitFund) (c : AccountId) (bn : Nat) :
    draw s c bn = (.error .OnlyAdminCanDraw, resetUsed s, none) ∨
    draw s c bn = (.error .ChitFundNotFinished, resetUsed s, none) ∨
    draw s c bn = (.error .FailedToGetWinner, resetUsed s, none) ∨
    (∃ w, c = s.admin ∧ s.finished = true ∧ w ∈ s.participants ∧
      w ∉ (resetUsed s).used_indexes ∧
      draw s c bn = (.ok (),
        { resetUsed s with
            used_indexes := (resetUsed s).used_indexes ++ [w] },
        some (w, s.total_amount - s.pot))) := by
  unfold draw
  split
  · exact .inl rfl
  · rename_i h1
    split
    · exact .inr (.inl rfl)
    · rename_i h2
      split
      · rename_i w u' hgra
        obtain ⟨hmem, hnot, hu⟩ := get_random_account_some hgra
        refine .inr (.inr (.inr ⟨w, ?_, ?_, ?_, hnot, ?_⟩))
        · rw [← resetUsed_admin]; exact not_not.mp h1
        · rw [← resetUsed_finished]; simpa using h2
        · rwa [resetUsed_participants] at hmem
        · rw [hu, resetUsed_total_amount, resetUsed_pot]
      · rename_i u' hgra
        have hu := get_random_account_none hgra
        refine .inr (.inr (.inl ?_))
        rw [hu]

/-- C3: winner selection returns `None` on an empty participant list;
otherwise it probes exactly the single index `seed % len(participants)`:
if the candidate there is already in `used_indexes` it returns `None`
leaving `used_indexes` unchanged, and otherwise it appends the candidate
to `used_indexes` and returns it; the outcome depends on no participant
entry other than the probed one. -/
theorem c3_get_random_account (ps used : List AccountId) (seed : Nat) :
    (ps = [] → get_random_account ps used seed = (none, used)) ∧
    (ps ≠ [] →
      (ps.getD (seed % ps.length) 0 ∈ used →
        get_random_account ps used seed = (none, used)) ∧
      (ps.getD (seed % ps.length) 0 ∉ used →
        get_random_account ps used seed =
          (some (ps.getD (seed % ps.length) 0),
            used ++ [ps.getD (seed % ps.length) 0])) ∧
      (∀ qs : List AccountId, qs.length = ps.length →
        qs.getD (seed % ps.length) 0 = ps.getD (seed % ps.length) 0 →
        get_random_account qs used seed = get_random_account ps used seed)) := by
  constructor
  · intro h
    simp [get_random_account, h]
  · intro hps
    refine ⟨?_, ?_, ?_⟩
    · intro hmem
      simp only [List.getD_eq_getElem?_getD] at hmem
      simp [get_random_account, hps, hmem]
    · intro hmem
      simp only [List.getD_eq_getElem?_getD] at hmem
      simp [get_random_account, hps, hmem]
    · intro qs hlen hget
      have hq : qs ≠ [] := by
        intro h
        apply hps
        rw [h] at hlen
        exact List.length_eq_zero.mp hlen.symm
      simp only [get_random_account, if_neg hq, if_neg hps, hlen, hget]

/-- C3 witness: a concrete selection in a two-participant fund. -/
theorem c3_witness : get_random_account [5, 7] [7] 2 = (some 5, [7, 5]) :=
  ((c3_get_random_account [5, 7] [7] 2).2 (by decide)).2.1 (by decide)

/-- C4: `end_cycle` rejects non-admin callers with `OnlyOwnerCanEndCycle`
and an already-finished fund with `ChitFundAlreadyFinished` (in that
guard order), and otherwise succeeds, snapshotting `total_amount := pot`,
zeroing `pot`, incrementing `current_round` by exactly one and setting
`finished := true`. -/
theorem c4_end_cycle (s : ChitFund) (caller : AccountId) :
    (caller ≠ s.admin → end_cycle s caller = (.error .OnlyOwnerCanEndCycle, s)) ∧
    (caller = s.admin → s.finished = true →
      end_cycle s caller = (.error .ChitFundAlreadyFinished, s)) ∧
    (caller = s.admin → s.finished = false →
      (end_cycle s caller).1 = .ok () ∧
      (end_cycle s caller).2.total_amount = s.pot ∧
      (end_cycle s caller).2.pot = 0 ∧
      (end_cycle s caller).2.current_round = s.current_round + 1 ∧
      (end_cycle s caller).2.finished = true) := by
  refine ⟨?_, ?_, ?_⟩
  · intro h
    simp [end_cycle, h]
  · intro h hf
    simp [end_cycle, h, hf]
  · intro h hf
    simp [end_cycle, h, hf]

/-- C4 witness: a successful `end_cycle` by the admin on a fresh fund. -/
theorem c4_witness :
    (end_cycle (ChitFund.new 0 3 100) 0).1 = .ok () ∧
    (end_cycle (ChitFund.new 0 3 100) 0).2.total_amount =
      (ChitFund.new 0 3 100).pot ∧
    (end_cycle (ChitFund.new 0 3 100) 0).2.pot = 0 ∧
    (end_cycle (ChitFund.new 0 3 100) 0).2.current_round =
      (ChitFund.new 0 3 100).current_round + 1 ∧
    (end_cycle (ChitFund.new 0 3 100) 0).2.finished = true :=
  (c4_end_cycle (ChitFund.new 0 3 100) 0).2.2 rfl rfl

/-- C8 counterexample: a participant deposits an attached value of 0;
the call succeeds but `pot` does not strictly increase. -/
theorem c8_counterexample :
    (deposit smallPotState 1 0).1 = .ok () ∧
    ¬ smallPotState.pot < (deposit smallPotState 1 0).2.pot := by decide

/-- C8 (amended): `deposit` fails with `NotParticipant` when the caller is
not enrolled, fails with `ChitFundHasFinished` when the fund is finished,
and otherwise succeeds, adding exactly the attached value to `pot` (a
strict increase whenever the attached value is positive) and changing
nothing else; it never succeeds while `finished = true`. -/
theorem c8_deposit (s : ChitFund) (caller : AccountId) (v : Balance) :
    (caller ∉ s.participants → deposit s caller v = (.error .NotParticipant, s)) ∧
    (caller ∈ s.participants → s.finished = true →
      deposit s caller v = (.error .ChitFundHasFinished, s)) ∧
    (caller ∈ s.participants → s.finished = false →
      deposit s caller v = (.ok (), { s with pot := s.pot + v }) ∧
      (0 < v → s.pot < (deposit s caller v).2.pot)) ∧
    (s.finished = true → (deposit s caller v).1 ≠ .ok ()) := by
  refine ⟨?_, ?_, ?_, ?_⟩
  · intro h
    simp [deposit, h]
  · intro h hf
    simp [deposit, h, hf]
  · intro h hf
    have he : deposit s caller v = (.ok (), { s with pot := s.pot + v }) := by
      simp [deposit, h, hf]
    refine ⟨he, fun hv => ?_⟩
    rw [he]
    simpa using hv
  · intro hf
    by_cases h : caller ∈ s.participants <;> simp [deposit, h, hf]

/-- C8 witness: a concrete successful deposit of 5 units. -/
theorem c8_witness :
    deposit smallPotState 1 5 =
      (.ok (), { smallPotState with pot := smallPotState.pot + 5 }) ∧
    smallPotState.pot < (deposit smallPotState 1 5).2.pot := by
  have h := (c8_deposit smallPotState 1 5).2.2.1 (by decide) rfl
  exact ⟨h.1, h.2 (by decide)⟩

/-- C1 counterexample: a `draw` by a non-admin caller fails with
`OnlyAdminCanDraw` yet mutates the state: the exhaustion reset has
already cleared `used_indexes`. -/
theorem c1_counterexample :
    (draw drawFailState 1 0).1 = .error .OnlyAdminCanDraw ∧
    (draw drawFailState 1 0).2.1 ≠ drawFailState ∧
    (draw drawFailState 1 0).2.1.used_indexes = [] := by decide

/-- C1 (amended): `join`, `deposit`, `end_cycle` and `begin_cycle` leave
the state unchanged whenever they return an error; a failing `draw`
leaves the state unchanged except for the exhaustion-reset step, which
clears `used_indexes` before the guards run — so every failing `draw`
(including the `OnlyAdminCanDraw`, `ChitFundNotFinished` and
`FailedToGetWinner` paths) ends in `resetUsed s`, and only when
`used_indexes` and `participants` differ in length at entry is a failing
`draw` free of side effects. -/
theorem c1_failure_atomicity (s : ChitFund) (caller : AccountId)
    (v : Balance) (bn : Nat) :
    (∀ e, (join s caller).1 = .error e → (join s caller).2 = s) ∧
    (∀ e, (deposit s caller v).1 = .error e → (deposit s caller v).2 = s) ∧
    (∀ e, (end_cycle s caller).1 = .error e → (end_cycle s caller).2 = s) ∧
    (∀ e, (begin_cycle s caller).1 = .error e → (begin_cycle s caller).2 = s) ∧
    (∀ e, (draw s caller bn).1 = .error e →
      (draw s caller bn).2.1 = resetUsed s) ∧
    (s.used_indexes.length ≠ s.participants.length →
      ∀ e, (draw s caller bn).1 = .error e → (draw s caller bn).2.1 = s) := by
  refine ⟨?_, ?_, ?_, ?_, ?_, ?_⟩
  · intro e he
    rcases join_eq s caller with h | h | h | ⟨-, -, -, h⟩ <;> rw [h] at he ⊢ <;>
      first | rfl | simp at he
  · intro e he
    rcases deposit_eq s caller v with h | h | ⟨-, -, h⟩ <;> rw [h] at he ⊢ <;>
      first | rfl | simp at he
  · intro e he
    rcases end_cycle_eq s caller with h | h | ⟨-, -, h⟩ <;> rw [h] at he ⊢ <;>
      first | rfl | simp at he
  · intro e he
    rcases begin_cycle_eq s caller with h | h | ⟨-, -, h⟩ <;> rw [h] at he ⊢ <;>
      first | rfl | simp at he
  · intro e he
    rcases draw_eq s caller bn with h | h | h | ⟨w, -, -, -, -, h⟩ <;>
      rw [h] at he ⊢ <;> first | rfl | simp at he
  · intro hne e he
    rcases draw_eq s caller bn with h | h | h | ⟨w, -, -, -, -, h⟩ <;>
      rw [h] at he ⊢ <;> first | exact resetUsed_of_ne s hne | simp at he

/-- C1 witness: a rejected `join` on a full fund leaves the state intact,
and a rejected non-admin `draw` ends in exactly the reset state. -/
theorem c1_witness :
    (join drawFailState 2).2 = drawFailState ∧
    (draw drawFailState 1 0).2.1 = resetUsed drawFailState :=
  ⟨(c1_failure_atomicity drawFailState 2 0 0).1 .ParticipantsAlreadyFull
      (by decide),
    (c1_failure_atomicity drawFailState 1 0 0).2.2.2.2.1 .OnlyAdminCanDraw
      (by decide)⟩

/-- C6 counterexample: `end_cycle` then `begin_cycle` by the admin both
succeed and return `finished` to `false`, but `current_round` does not
return to its pre-`end_cycle` value. -/
theorem c6_counterexample :
    (end_cycle collectingState 0).1 = .ok () ∧
    (begin_cycle (end_cycle collectingState 0).2 0).1 = .ok () ∧
    (begin_cycle (end_cycle collectingState 0).2 0).2.finished = false ∧
    (begin_cycle (end_cycle collectingState 0).2 0).2.current_round ≠
      collectingState.current_round := by decide

/-- C6 (amended): from a state with `finished = false`, an admin
`end_cycle` followed by an admin `begin_cycle` both succeed, `finished`
returns to `false` and `participants` is unchanged, but `current_round`
ends exactly one greater than its pre-`end_cycle` value (`begin_cycle`
itself leaves `current_round` untouched). -/
theorem c6_round_trip (s : ChitFund) (caller : AccountId)
    (hadm : caller = s.admin) (hfin : s.finished = false) :
    (end_cycle s caller).1 = .ok () ∧
    (begin_cycle (end_cycle s caller).2 caller).1 = .ok () ∧
    (begin_cycle (end_cycle s caller).2 caller).2.finished = false ∧
    (begin_cycle (end_cycle s caller).2 caller).2.participants =
      s.participants ∧
    (begin_cycle (end_cycle s caller).2 caller).2.current_round =
      s.current_round + 1 ∧
    (begin_cycle (end_cycle s caller).2 caller).2.current_round =
      (end_cycle s caller).2.current_round := by
  subst hadm
  simp [end_cycle, begin_cycle, hfin]

/-- C6 witness: the round trip on a concrete two-participant fund. -/
theorem c6_witness :
    (end_cycle collectingState 0).1 = .ok () ∧
    (begin_cycle (end_cycle collectingState 0).2 0).1 = .ok () ∧
    (begin_cycle (end_cycle collectingState 0).2 0).2.finished = false ∧
    (begin_cycle (end_cycle collectingState 0).2 0).2.participants =
      collectingState.participants ∧
    (begin_cycle (end_cycle collectingState 0).2 0).2.current_round =
      collectingState.current_round + 1 ∧
    (begin_cycle (end_cycle collectingState 0).2 0).2.current_round =
      (end_cycle collectingState 0).2.current_round :=
  c6_round_trip collectingState 0 rfl rfl

/-- C7: the exhaustion-reset step at the top of `draw` clears
`used_indexes` exactly when its length equals the participant count at
entry (and touches nothing otherwise); after the reset `draw` only ever
appends a single winner; and no other operation modifies `used_indexes`
at all. -/
theorem c7_exhaustion_reset (s : ChitFund) (caller : AccountId)
    (v : Balance) :
    (s.used_indexes.length = s.participants.length →
      resetUsed s = { s with used_indexes := [] }) ∧
    (s.used_indexes.length ≠ s.participants.length → resetUsed s = s) ∧
    ((resetUsed s).used_indexes = [] ↔
      (s.used_indexes.length = s.participants.length ∨ s.used_indexes = [])) ∧
    (∀ bn, (draw s caller bn).2.1.used_indexes = (resetUsed s).used_indexes ∨
      ∃ w, (draw s caller bn).2.1.used_indexes =
        (resetUsed s).used_indexes ++ [w]) ∧
    (join s caller).2.used_indexes = s.used_indexes ∧
    (deposit s caller v).2.used_indexes = s.used_indexes ∧
    (end_cycle s caller).2.used_indexes = s.used_indexes ∧
    (begin_cycle s caller).2.used_indexes = s.used_indexes := by
  refine ⟨resetUsed_of_eq s, resetUsed_of_ne s, ?_, ?_, ?_, ?_, ?_, ?_⟩
  · by_cases h : s.used_indexes.length = s.participants.length
    · rw [resetUsed_of_eq s h]
      simp [h]
    · rw [resetUsed_of_ne s h]
      simp [h]
  · intro bn
    rcases draw_eq s caller bn with h | h | h | ⟨w, -, -, -, -, h⟩ <;> rw [h]
    · exact .inl rfl
    · exact .inl rfl
    · exact .inl rfl
    · exact .inr ⟨w, rfl⟩
  · rcases join_eq s caller with h | h | h | ⟨-, -, -, h⟩ <;> rw [h]
  · rcases deposit_eq s caller v with h | h | ⟨-, -, h⟩ <;> rw [h]
  · rcases end_cycle_eq s caller with h | h | ⟨-, -, h⟩ <;> rw [h]
  · rcases begin_cycle_eq s caller with h | h | ⟨-, -, h⟩ <;> rw [h]

/-- C7 witness: the reset fires on a concrete fund whose single
participant has already won, and `join` leaves `used_indexes` alone. -/
theorem c7_witness :
    resetUsed drawFailState = { drawFailState with used_indexes := [] } ∧
    (join drawFailState 5).2.used_indexes = drawFailState.used_indexes :=
  ⟨(c7_exhaustion_reset drawFailState 5 0).1 rfl,
    (c7_exhaustion_reset drawFailState 5 0).2.2.2.2.1⟩

/-- C2 counterexample: in a one-participant fund whose participant has
already won, a `draw` by the admin succeeds and pays that participant
even though they were a member of `used_indexes` immediately before the
call (the entry reset cleared the set first). -/
theorem c2_counterexample :
    (draw drawPhaseState 0 0).1 = .ok () ∧
    (draw drawPhaseState 0 0).2.2 = some (1, 300) ∧
    1 ∈ drawPhaseState.used_indexes := by decide

/-- C2 (amended): whenever `draw` succeeds it performs exactly one
transfer; the winner was not in `used_indexes` as left by the
exhaustion-reset step (hence not in the pre-call `used_indexes` whenever
the reset did not fire), is in `used_indexes` after the call, and the
transferred amount equals `total_amount - pot` as read at call time. -/
theorem c2_draw_success (s : ChitFund) (caller : AccountId) (bn : Nat)
    (h : (draw s caller bn).1 = .ok ()) :
    ∃ w amt, (draw s caller bn).2.2 = some (w, amt) ∧
      w ∉ (resetUsed s).used_indexes ∧
      (s.used_indexes.length ≠ s.participants.length → w ∉ s.used_indexes) ∧
      w ∈ (draw s caller bn).2.1.used_indexes ∧
      amt = s.total_amount - s.pot := by
  rcases draw_eq s caller bn with hd | hd | hd | ⟨w, -, -, -, hnot, hd⟩
  · rw [hd] at h
    simp at h
  · rw [hd] at h
    simp at h
  · rw [hd] at h
    simp at h
  · refine ⟨w, s.total_amount - s.pot, ?_, hnot, ?_, ?_, rfl⟩
    · rw [hd]
    · intro hne
      rwa [resetUsed_of_ne s hne] at hnot
    · rw [hd]
      simp

/-- C2 witness: the concrete successful draw paying out 300 units. -/
theorem c2_witness :
    ∃ w amt, (draw drawPhaseState 0 0).2.2 = some (w, amt) ∧
      w ∉ (resetUsed drawPhaseState).used_indexes ∧
      (drawPhaseState.used_indexes.length ≠
          drawPhaseState.participants.length →
        w ∉ drawPhaseState.used_indexes) ∧
      w ∈ (draw drawPhaseState 0 0).2.1.used_indexes ∧
      amt = drawPhaseState.total_amount - drawPhaseState.pot :=
  c2_draw_success drawPhaseState 0 0 (by decide)

/-! ### Lemmas about sequences of `join` calls -/

theorem runJoins_le_and_nodup (l : List AccountId) (s : ChitFund)
    (h1 : s.participants.length ≤ s.max_participants)
    (h2 : s.participants.Nodup) :
    (runJoins s l).participants.length ≤ (runJoins s l).max_participants ∧
    (runJoins s l).participants.Nodup ∧
    (runJoins s l).max_participants = s.max_participants := by
  induction l generalizing s with
  | nil => exact ⟨h1, h2, rfl⟩
  | cons c cs ih =>
    simp only [runJoins]
    rcases join_eq s c with h | h | h | ⟨hc, hlt, -, h⟩
    · rw [h]
      exact ih s h1 h2
    · rw [h]
      exact ih s h1 h2
    · rw [h]
      exact ih s h1 h2
    · rw [h]
      refine ih { s with participants := s.participants ++ [c] } ?_ ?_
      · simpa using hlt
      · simpa [List.nodup_append] using ⟨h2, hc⟩

theorem runJoins_fills (l : List AccountId) (s : ChitFund)
    (hf : s.finished = false) (hnodup : l.Nodup)
    (hdisj : ∀ x ∈ l, x ∉ s.participants)
    (hlen : s.participants.length + l.length ≤ s.max_participants) :
    runJoins s l = { s with participants := s.participants ++ l } := by
  induction l generalizing s with
  | nil => simp [runJoins]
  | cons c cs ih =>
    simp only [List.length_cons] at hlen
    have hjoin : join s c =
        (.ok (), { s with participants := s.participants ++ [c] }) := by
      unfold join
      rw [if_neg (by omega : ¬ s.max_participants ≤ s.participants.length),
        if_neg (by simp [hf] : ¬ s.finished = true),
        if_neg (hdisj c (List.mem_cons_self c cs))]
    show runJoins (join s c).2 cs = _
    rw [hjoin]
    rw [ih { s with participants := s.participants ++ [c] } hf
      (List.Nodup.of_cons hnodup)
      (fun x hx => by
        simp only [List.mem_append, List.mem_singleton, not_or]
        exact ⟨hdisj x (List.mem_cons_of_mem c hx),
          fun he => (List.nodup_cons.mp hnodup).1 (he ▸ hx)⟩)
      (by simpa using by omega)]
    simp

/-- C5: starting from a fresh fund, under any sequence of `join` calls
the participant list never exceeds `max_participants` and never contains
duplicates; and after `max_participants` distinct callers have joined, a
further distinct caller is rejected with `ParticipantsAlreadyFull`,
leaving the registry unchanged. -/
theorem c5_join_sequences (a : AccountId) (m : Nat) (mc : Balance)
    (l : List AccountId) (c : AccountId) :
    ((runJoins (ChitFund.new a m mc) l).participants.length ≤ m ∧
      (runJoins (ChitFund.new a m mc) l).participants.Nodup) ∧
    (l.Nodup → l.length = m → c ∉ l →
      join (runJoins (ChitFund.new a m mc) l) c =
        (.error .ParticipantsAlreadyFull,
          runJoins (ChitFund.new a m mc) l)) := by
  constructor
  · have h := runJoins_le_and_nodup l (ChitFund.new a m mc)
      (by simp [ChitFund.new]) (by simp [ChitFund.new])
    exact ⟨le_trans h.1 (le_of_eq h.2.2), h.2.1⟩
  · intro hnd hlen hc
    have hfill := runJoins_fills l (ChitFund.new a m mc) rfl hnd
      (by simp [ChitFund.new]) (by simp [ChitFund.new, hlen])
    rw [hfill]
    unfold join
    rw [if_pos (by simp [ChitFund.new, hlen])]

/-- C5 witness: with capacity 2, callers 1 and 2 fill the fund and
caller 3 is rejected. -/
theorem c5_witness :
    join (runJoins (ChitFund.new 0 2 100) [1, 2]) 3 =
      (.error .ParticipantsAlreadyFull, runJoins (ChitFund.new 0 2 100) [1, 2]) :=
  (c5_join_sequences 0 2 100 [1, 2] 3).2 (by decide) (by decide) (by decide)

/-! ### Preservation lemmas for the reachability invariants -/

theorem usedSubsetInv_resetUsed (s : ChitFund) (h : usedSubsetInv s) :
    usedSubsetInv (resetUsed s) := by
  unfold resetUsed
  split
  · exact ⟨by simp, List.nodup_nil⟩
  · exact h

theorem usedSubsetInv_apply (s : ChitFund) (op : Op) (h : usedSubsetInv s) :
    usedSubsetInv (apply s op) := by
  obtain ⟨hsub, hnd⟩ := h
  cases op with
  | join c =>
    rcases join_eq s c with hj | hj | hj | ⟨-, -, -, hj⟩ <;>
      simp only [apply, hj]
    · exact ⟨hsub, hnd⟩
    · exact ⟨hsub, hnd⟩
    · exact ⟨hsub, hnd⟩
    · exact ⟨fun x hx => List.mem_append_left _ (hsub x hx), hnd⟩
  | deposit c v =>
    rcases deposit_eq s c v with hj | hj | ⟨-, -, hj⟩ <;>
        simp only [apply, hj] <;>
      exact ⟨hsub, hnd⟩
  | end_cycle c =>
    rcases end_cycle_eq s c with hj | hj | ⟨-, -, hj⟩ <;>
        simp only [apply, hj] <;>
      exact ⟨hsub, hnd⟩
  | begin_cycle c =>
    rcases begin_cycle_eq s c with hj | hj | ⟨-, -, hj⟩ <;>
        simp only [apply, hj] <;>
      exact ⟨hsub, hnd⟩
  | draw c bn =>
    have hr := usedSubsetInv_resetUsed s ⟨hsub, hnd⟩
    rcases draw_eq s c bn with hj | hj | hj | ⟨w, -, -, hwmem, hwnot, hj⟩ <;>
      simp only [apply, hj]
    · exact hr
    · exact hr
    · exact hr
    · refine ⟨fun x hx => ?_, ?_⟩
      · dsimp only at hx ⊢
        rcases List.mem_append.mp hx with hx' | hx'
        · exact hr.1 x hx'
        · rw [List.mem_singleton.mp hx', resetUsed_participants]
          exact hwmem
      · dsimp only
        simpa [List.nodup_append] using ⟨hr.2, hwnot⟩

theorem finishedPotInv_apply (s : ChitFund) (op : Op)
    (h : finishedPotInv s) : finishedPotInv (apply s op) := by
  cases op with
  | join c =>
    rcases join_eq s c with hj | hj | hj | ⟨-, -, -, hj⟩ <;>
        simp only [apply, hj] <;>
      exact h
  | deposit c v =>
    rcases deposit_eq s c v with hj | hj | ⟨-, hf, hj⟩ <;>
      simp only [apply, hj]
    · exact h
    · exact h
    · intro hfin
      rw [show ({ s with pot := s.pot + v } : ChitFund).finished = s.finished
        from rfl, hf] at hfin
      cases hfin
  | end_cycle c =>
    rcases end_cycle_eq s c with hj | hj | ⟨-, -, hj⟩ <;>
      simp only [apply, hj]
    · exact h
    · exact h
    · intro _
      rfl
  | begin_cycle c =>
    rcases begin_cycle_eq s c with hj | hj | ⟨-, -, hj⟩ <;>
      simp only [apply, hj]
    · exact h
    · exact h
    · intro hfin
      cases hfin
  | draw c bn =>
    have hr : finishedPotInv (resetUsed s) := by
      intro hfin
      rw [resetUsed_finished] at hfin
      rw [resetUsed_pot]
      exact h hfin
    rcases draw_eq s c bn with hj | hj | hj | ⟨w, -, -, -, -, hj⟩ <;>
      simp only [apply, hj]
    · exact hr
    · exact hr
    · exact hr
    · intro hfin
      exact hr hfin

/-- C9: in every reachable state, `used_indexes` only holds identifiers
that are also in `participants` and contains no duplicates; and every
single operation preserves this invariant. -/
theorem c9_used_subset (s : ChitFund) :
    (Reachable s → usedSubsetInv s) ∧
    (∀ op : Op, usedSubsetInv s → usedSubsetInv (apply s op)) := by
  constructor
  · intro h
    induction h with
    | init a m mc => exact ⟨by simp [ChitFund.new], List.nodup_nil⟩
    | step s' op hr ih => exact usedSubsetInv_apply s' op ih
  · intro op h
    exact usedSubsetInv_apply s op h

/-- C9 witness: the invariant holds in a concrete reachable state, one
`join` after construction. -/
theorem c9_witness :
    usedSubsetInv (apply (ChitFund.new 0 3 100) (.join 1)) :=
  (c9_used_subset (apply (ChitFund.new 0 3 100) (.join 1))).1
    (Reachable.step (ChitFund.new 0 3 100) (.join 1) (Reachable.init 0 3 100))

/-- C10: in every reachable state, `finished = true` implies `pot = 0`;
hence the subtraction `total_amount - pot` inside a guarded `draw` never
underflows and every transfer a `draw` performs from a reachable state
pays exactly `total_amount`. -/
theorem c10_draw_amount (s : ChitFund) (h : Reachable s) :
    (s.finished = true → s.pot = 0) ∧
    (s.finished = true →
      s.pot ≤ s.total_amount ∧ s.total_amount - s.pot = s.total_amount) ∧
    (∀ caller bn w amt,
      (draw s caller bn).2.2 = some (w, amt) → amt = s.total_amount) := by
  have hinv : finishedPotInv s := by
    induction h with
    | init a m mc => intro hfin; cases hfin
    | step s' op hr ih => exact finishedPotInv_apply s' op ih
  refine ⟨hinv, ?_, ?_⟩
  · intro hf
    rw [hinv hf]
    exact ⟨Nat.zero_le _, rfl⟩
  · intro caller bn w amt hd
    rcases draw_eq s caller bn with hj | hj | hj | ⟨w', -, hfin, -, -, hj⟩
    · rw [hj] at hd
      cases hd
    · rw [hj] at hd
      cases hd
    · rw [hj] at hd
      cases hd
    · rw [hj] at hd
      have := (Prod.mk.injEq .. ▸ Option.some.inj hd).2
      rw [← this, hinv hfin]
      exact Nat.sub_zero _

/-- C10 witness: the invariant and payout property in the concrete
reachable state produced by `end_cycle` right after construction. -/
theorem c10_witness :
    ((apply (ChitFund.new 0 3 100) (.end_cycle 0)).finished = true →
      (apply (ChitFund.new 0 3 100) (.end_cycle 0)).pot = 0) ∧
    ((apply (ChitFund.new 0 3 100) (.end_cycle 0)).finished = true →
      (apply (ChitFund.new 0 3 100) (.end_cycle 0)).pot ≤
          (apply (ChitFund.new 0 3 100) (.end_cycle 0)).total_amount ∧
        (apply (ChitFund.new 0 3 100) (.end_cycle 0)).total_amount -
            (apply (ChitFund.new 0 3 100) (.end_cycle 0)).pot =
          (apply (ChitFund.new 0 3 100) (.end_cycle 0)).total_amount) ∧
    (∀ caller bn w amt,
      (draw (apply (ChitFund.new 0 3 100) (.end_cycle 0)) caller bn).2.2 =
          some (w, amt) →
        amt = (apply (ChitFund.new 0 3 100) (.end_cycle 0)).total_amount) :=
  c10_draw_amount (apply (ChitFund.new 0 3 100) (.end_cycle 0))
    (Reachable.step (ChitFund.new 0 3 100) (.end_cycle 0)
      (Reachable.init 0 3 100))

end ChitFundSpec
